import Mathlib

/-!
Verification of the Energy-Trade dashboard (`src/app.py`) against its
specification.  The development shallowly embeds the data-cleaning
pipeline (`clean_data`), the chunked HTTP submission routine
(`send_data_in_chunks` / `send_post_request`), the file-ingestion
boundary (`process_uploaded_file`) and the sorted group-by aggregations
(`identify_major_energy_sources`, `analyze_import_export_dynamics`).
-/

namespace EnergyTrade

/-- A scalar cell of a dataframe: a missing value (pandas `NaN`/`None`),
a number (ints and floats are modelled together as rationals, matching
value equality `1 == 1.0` used by `drop_duplicates`), or a string. -/
inductive Value where
  | null : Value
  | num (q : ℚ) : Value
  | str (s : String) : Value
deriving DecidableEq

/-- Numeric value of a digit string, e.g. `digitsVal ['4','2'] = 42`. -/
def digitsVal (cs : List Char) : ℚ :=
  cs.foldl (fun a c => 10 * a + ((c.toNat - 48 : ℕ) : ℚ)) 0

/-- Models the numeric grammar accepted by `pd.to_numeric` on a string
cell: optional sign, then digits with an optional fractional part
(at least one digit overall).  `none` models a coercion failure
(e.g. `pd.to_numeric("x")` raising).  Exponent forms are outside the
subset exercised here; no claim depends on the exact grammar, only on
the existence of parseable and unparseable strings. -/
def parseNum (s : String) : Option ℚ :=
  let cs := s.toList
  let sgn : ℚ := match cs with
    | '-' :: _ => -1
    | _ => 1
  let cs1 : List Char := match cs with
    | '-' :: t => t
    | '+' :: t => t
    | _ => cs
  let ip := cs1.takeWhile Char.isDigit
  let rest := cs1.dropWhile Char.isDigit
  match rest with
  | [] => if ip.isEmpty then none else some (sgn * digitsVal ip)
  | '.' :: rest2 =>
      let fp := rest2.takeWhile Char.isDigit
      let rest3 := rest2.dropWhile Char.isDigit
      if rest3.isEmpty && !(ip.isEmpty && fp.isEmpty) then
        some (sgn * (digitsVal ip + digitsVal fp / (10 : ℚ) ^ fp.length))
      else none
  | _ => none

/-- Models `pd.to_numeric` on a single cell: numbers pass through,
missing values stay missing (`to_numeric(NaN) = NaN`), strings are
parsed; `none` is a raised coercion error. -/
def toNumVal : Value → Option Value
  | Value.null => some Value.null
  | Value.num q => some (Value.num q)
  | Value.str s => (parseNum s).map Value.num

/-- The coerced cell when coercion is applied, the original cell when
the attempt failed (used only under a column-wide success mask). -/
def coerceVal (v : Value) : Value := (toNumVal v).getD v

/-- Whether a cell is of numeric kind (a number or a numeric missing
value); a column all of whose cells satisfy this models a column of
numeric dtype, as selected by `df.select_dtypes(include='number')`. -/
def isNumOrNull : Value → Bool
  | Value.str _ => false
  | _ => true

/-- A dataframe is an ordered list of rows; each row lists its cells in
column order. -/
abbrev DataFrame := List (List Value)

/-- Column `j` of the dataframe: the `j`-th cell of each row that has
one (for actual dataframes all rows have the same length, so this is
the full column). -/
def col (df : DataFrame) (j : ℕ) : List Value :=
  df.filterMap (fun r => r[j]?)

/-- Stable removal of duplicates, keeping the first occurrence:
`seen` accumulates the rows already emitted. -/
def dedupFrom {α : Type} [DecidableEq α] (seen : List α) : List α → List α
  | [] => []
  | r :: rest =>
      if r ∈ seen then dedupFrom seen rest
      else r :: dedupFrom (r :: seen) rest

/-- Models `df.drop_duplicates()`: remove rows equal (cell-by-cell,
with `NaN` equal to `NaN`) to an earlier row, keeping first
occurrences in order. -/
def drop_duplicates (df : DataFrame) : DataFrame := dedupFrom [] df

/-- Apply a column-index-aware function to every cell of a row, the
first cell having index `j0`. -/
def applyIdx (g : ℕ → Value → Value) : ℕ → List Value → List Value
  | _, [] => []
  | j, v :: r => g j v :: applyIdx g (j + 1) r

/-- Whether every cell of column `j` coerces, i.e. whether
`pd.to_numeric(df[col], errors='ignore')` succeeds for that column. -/
def colCoercible (df : DataFrame) (j : ℕ) : Bool :=
  (col df j).all (fun v => (toNumVal v).isSome)

/-- Models the loop `for col in df.columns: df[col] =
pd.to_numeric(df[col], errors='ignore')`: a column is converted only
when every one of its cells coerces, otherwise it is left unchanged. -/
def coerceStep (df : DataFrame) : DataFrame :=
  df.map (applyIdx (fun j v => if colCoercible df j then coerceVal v else v) 0)

/-- Whether column `j` is of numeric dtype after coercion. -/
def colIsNumeric (df : DataFrame) (j : ℕ) : Bool :=
  (col df j).all isNumOrNull

/-- The non-missing numeric entries of column `j`. -/
def colNums (df : DataFrame) (j : ℕ) : List ℚ :=
  (col df j).filterMap (fun v =>
    match v with
    | Value.num q => some q
    | _ => none)

/-- Models `x.mean()` for a column: the arithmetic mean of the
non-missing entries, `none` (pandas `NaN`) when there are none. -/
def colMean (df : DataFrame) (j : ℕ) : Option ℚ :=
  let ns := colNums df j
  if ns.isEmpty then none else some (ns.sum / (ns.length : ℚ))

/-- Models `df[numeric_cols] = df[numeric_cols].apply(lambda x:
x.fillna(x.mean()))`: in each numeric-dtype column, missing values are
replaced by that column's mean; a mean of `none` (all-missing column)
fills nothing, and non-numeric columns are untouched. -/
def fillStep (df : DataFrame) : DataFrame :=
  df.map (applyIdx (fun j v =>
    if colIsNumeric df j then
      match colMean df j, v with
      | some m, Value.null => Value.num m
      | _, _ => v
    else v) 0)

/-- Models `clean_data` (src/app.py lines 26-33): drop duplicate rows,
coerce each fully-coercible column to numbers, then mean-fill the
missing values of numeric columns. -/
def clean_data (df : DataFrame) : DataFrame :=
  fillStep (coerceStep (drop_duplicates df))

/-- A JSON value, the possible result of `response.json()`. -/
inductive Json where
  | null : Json
  | bool (b : Bool) : Json
  | num (q : ℚ) : Json
  | str (s : String) : Json
  | arr (elems : List Json) : Json
  | obj (fields : List (String × Json)) : Json

/-- Python truthiness of a decoded JSON value: `None`, `False`, `0`,
`""`, `[]` and `{}` are falsy, everything else truthy. -/
def truthy : Json → Bool
  | Json.null => false
  | Json.bool b => b
  | Json.num q => decide (q ≠ 0)
  | Json.str s => decide (s ≠ "")
  | Json.arr es => !es.isEmpty
  | Json.obj fs => !fs.isEmpty

/-- An HTTP response: its status code and the JSON decoding of its
body (`none` when the body is not valid JSON, so that `response.json()`
raises). -/
structure HttpResponse where
  status : ℕ
  body : Option Json

/-- The network environment: what `requests.post(url, json=chunk)`
yields for a given chunk; `none` models a network error or timeout
(a raised `RequestException`). -/
abbrev Network (α : Type) := List α → Option HttpResponse

/-- Models `send_post_request` (src/app.py lines 151-158): POST the
chunk; `raise_for_status` raises `HTTPError` on a 4xx/5xx status and
`response.json()` raises on an undecodable body — every raise is
caught by the `except RequestException` handler, which reports the
error and returns `None`. -/
def send_post_request {α : Type} (net : Network α) (data_chunk : List α) :
    Option Json :=
  match net data_chunk with
  | none => none
  | some resp =>
      if 400 ≤ resp.status ∧ resp.status < 600 then none
      else resp.body

/-- Python truthiness of the value returned by `send_post_request`,
as tested by `if response:` in the submission loop. -/
def responseTruthy : Option Json → Bool
  | none => false
  | some j => truthy j

/-- Models `num_chunks = len(data) // chunk_size + (1 if len(data) %
chunk_size > 0 else 0)` (src/app.py line 161). -/
def num_chunks (n cs : ℕ) : ℕ :=
  n / cs + (if n % cs > 0 then 1 else 0)

/-- Models the slice `data[i * chunk_size:(i + 1) * chunk_size]`
(src/app.py line 163). -/
def chunkAt {α : Type} (data : List α) (cs i : ℕ) : List α :=
  (data.drop (i * cs)).take cs

/-- The list of chunks the submission loop slices out, in order. -/
def chunksOf {α : Type} (data : List α) (cs : ℕ) : List (List α) :=
  (List.range (num_chunks data.length cs)).map (chunkAt data cs)

/-- The body of the `for i in range(num_chunks)` loop of
`send_data_in_chunks`, over the remaining loop indices: each chunk is
POSTed in turn; a truthy response records success and continues, a
falsy one records failure and `break`s.  The result is the trace of
per-chunk notifications `(chunk index, reported success?)`. -/
def sendLoop {α : Type} (net : Network α) (data : List α) (cs : ℕ) :
    List ℕ → List (ℕ × Bool)
  | [] => []
  | i :: rest =>
      if responseTruthy (send_post_request net (chunkAt data cs i)) then
        (i, true) :: sendLoop net data cs rest
      else [(i, false)]

/-- Models `send_data_in_chunks` (src/app.py lines 160-169): the trace
of per-chunk success/failure reports it emits. -/
def send_data_in_chunks {α : Type} (net : Network α) (data : List α)
    (cs : ℕ) : List (ℕ × Bool) :=
  sendLoop net data cs (List.range (num_chunks data.length cs))

/-- Split a character list at every `'.'`, keeping empty segments,
exactly as Python `str.split('.')` does: `"" ↦ [""]`, `"a..b" ↦
["a", "", "b"]`, `"data." ↦ ["data", ""]`. -/
def splitDots : List Char → List (List Char)
  | [] => [[]]
  | c :: cs =>
      let r := splitDots cs
      if c = '.' then [] :: r
      else (c :: r.headD []) :: r.tail

/-- Models `file.name.split('.')[-1]` (src/app.py line 12): the last
dot-separated segment of the filename, compared verbatim (and hence
case-sensitively) by the dispatch below. -/
def file_extension (name : String) : String :=
  String.mk ((splitDots name.toList).getLastD [])

/-- Models `process_uploaded_file` (src/app.py lines 9-24).  The two
parsers stand for `pd.read_csv` / `pd.read_json` applied to the file's
content, returning `none` when parsing raises; the `ValueError` raised
for any other extension is caught by the same handler, so every
failure path reports the error and returns `None` (here `none`). -/
def process_uploaded_file (read_csv read_json : String → Option DataFrame)
    (name content : String) : Option DataFrame :=
  if file_extension name = "csv" then read_csv content
  else if file_extension name = "json" then read_json content
  else none

/-- Models the ingestion part of `main` (src/app.py lines 182-190): if
a file is uploaded, it is processed, and only when the result is not
the `None` sentinel does the script run the downstream pipeline
(cleaning and everything after it).  Returns the cleaned dataframe the
downstream stages operate on, `none` when they are skipped. -/
def main_pipeline (read_csv read_json : String → Option DataFrame)
    (upload : Option (String × String)) : Option DataFrame :=
  match upload with
  | none => none
  | some (name, content) =>
      match process_uploaded_file read_csv read_json name content with
      | none => none
      | some df => some (clean_data df)

/-- A row of the cleaned dataset, restricted to the columns used by
`identify_major_energy_sources` and `analyze_import_export_dynamics`. -/
structure EnergyRow where
  energy_source : String
  production_volume : ℚ
  consumption_volume : ℚ
  country : String
  import_volume : ℚ
  export_volume : ℚ
deriving DecidableEq

/-- Lexicographic strict order on character lists by code point,
exactly Python's (and hence pandas') comparison of strings. -/
def strLtL : List Char → List Char → Bool
  | [], [] => false
  | [], _ :: _ => true
  | _ :: _, [] => false
  | a :: as, b :: bs =>
      if a.toNat < b.toNat then true
      else if b.toNat < a.toNat then false
      else strLtL as bs

/-- Python's `<` on strings. -/
def strLt (a b : String) : Prop := strLtL a.toList b.toList = true

/-- Python's `<=` on strings, as used when pandas sorts group keys. -/
def strLeB (a b : String) : Bool := !(strLtL b.toList a.toList)

/-- Models `df.groupby(key)[val].sum()`: group keys in ascending order
(pandas groups with `sort=True`), each with the sum of the grouped
values. -/
def group_sum (pairs : List (String × ℚ)) : List (String × ℚ) :=
  (List.insertionSort (fun a b => strLeB a b = true) (pairs.map Prod.fst).dedup).map
    (fun k => (k, ((pairs.filter (fun p => p.1 = k)).map Prod.snd).sum))

/-- Models `Series.sort_values(ascending=False)`: pandas computes an
ascending argsort of the values and reverses it.  In the regime the
claims exercise (the underlying argsort is the stable insertion sort
the library uses on small arrays) this is the reversal of a stable
ascending sort by value. -/
def sort_values_desc (s : List (String × ℚ)) : List (String × ℚ) :=
  (List.insertionSort (fun a b => a.2 ≤ b.2) s).reverse

/-- Models `identify_major_energy_sources` (src/app.py lines 53-56). -/
def identify_major_energy_sources (df : List EnergyRow) :
    List (String × ℚ) × List (String × ℚ) :=
  (sort_values_desc (group_sum (df.map
      (fun r => (r.energy_source, r.production_volume)))),
   sort_values_desc (group_sum (df.map
      (fun r => (r.energy_source, r.consumption_volume)))))

/-- Models `analyze_import_export_dynamics` (src/app.py lines 58-61). -/
def analyze_import_export_dynamics (df : List EnergyRow) :
    List (String × ℚ) × List (String × ℚ) :=
  (sort_values_desc (group_sum (df.map
      (fun r => (r.country, r.import_volume)))),
   sort_values_desc (group_sum (df.map
      (fun r => (r.country, r.export_volume)))))

/-- A concrete network for the spec's submission scenario: every POST
succeeds with a truthy JSON body except for the chunk starting at
record 500 (the second chunk of a 1200-record submission with chunk
size 500), which come back with a server error status. -/
def scenario_net : Network ℕ := fun c =>
  if c.headD 0 = 500 then some ⟨500, some (Json.str "boom")⟩
  else some ⟨200, some (Json.str "ok")⟩

/-! ### Chunked submission: helper lemmas -/

theorem num_chunks_eq_ceil (n cs : ℕ) (h : 0 < cs) :
    num_chunks n cs = (n + cs - 1) / cs := by
  have hdm := Nat.div_add_mod n cs
  have hrlt : n % cs < cs := Nat.mod_lt _ h
  have hsplit : n + cs - 1 = cs * (n / cs) + (n % cs + cs - 1) := by omega
  rw [num_chunks, hsplit, Nat.mul_add_div h]
  rcases Nat.eq_zero_or_pos (n % cs) with h0 | hpos
  · have hz : (n % cs + cs - 1) / cs = 0 := by
      apply Nat.div_eq_of_lt; omega
    simp [h0, hz]
    exact Nat.div_eq_of_lt (by omega)
  · have ho : (n % cs + cs - 1) / cs = 1 := by
      apply Nat.div_eq_of_lt_le
      · omega
      · omega
    simp [hpos, ho]

theorem length_le_num_chunks_mul {n cs : ℕ} (h : 0 < cs) :
    n ≤ num_chunks n cs * cs := by
  have hdm := Nat.div_add_mod n cs
  have hrlt : n % cs < cs := Nat.mod_lt _ h
  rw [num_chunks, Nat.add_mul]
  have hcomm : n / cs * cs = cs * (n / cs) := Nat.mul_comm _ _
  rcases Nat.eq_zero_or_pos (n % cs) with h0 | hpos
  · simp only [h0, Nat.lt_irrefl, if_false]
    omega
  · simp only [hpos, if_pos]
    omega

theorem flatten_chunks_prefix {α : Type} (data : List α) (cs : ℕ) :
    ∀ k : ℕ, ((List.range k).map (chunkAt data cs)).flatten = data.take (k * cs)
  | 0 => by simp
  | k + 1 => by
    rw [List.range_succ, List.map_append, List.flatten_append,
      flatten_chunks_prefix data cs k]
    simp only [List.map_cons, List.map_nil, List.flatten_cons, List.flatten_nil,
      List.append_nil, chunkAt]
    rw [Nat.succ_mul, List.take_add]

theorem length_chunkAt {α : Type} (data : List α) (cs i : ℕ) :
    (chunkAt data cs i).length = min cs (data.length - i * cs) := by
  simp [chunkAt]

theorem chunk_full_of_not_last {α : Type} (data : List α) (cs i : ℕ)
    (h : 0 < cs) (hi : i + 1 < num_chunks data.length cs) :
    (chunkAt data cs i).length = cs := by
  rw [length_chunkAt]
  have hfull : (i + 1) * cs ≤ data.length := by
    have hdm := Nat.div_add_mod data.length cs
    have hrlt : data.length % cs < cs := Nat.mod_lt _ h
    rw [num_chunks] at hi
    have hile : i + 1 ≤ data.length / cs := by
      rcases Nat.eq_zero_or_pos (data.length % cs) with h0 | hpos
      · simp [h0] at hi; omega
      · simp [hpos] at hi; omega
    calc (i + 1) * cs ≤ data.length / cs * cs := Nat.mul_le_mul_right cs hile
    _ = cs * (data.length / cs) := Nat.mul_comm _ _
    _ ≤ data.length := by omega
  have hsm : (i + 1) * cs = i * cs + cs := by rw [Nat.add_mul, Nat.one_mul]
  omega

/-- C1: for every list of records and every positive chunk size,
`send_data_in_chunks` slices the data into consecutive chunks of size
at most `chunk_size`, the number of chunks is `⌈len(data) /
chunk_size⌉`, every chunk except possibly the last has size exactly
`chunk_size`, and concatenating the chunks in order reproduces the
data exactly. -/
theorem chunking_partitions_exactly {α : Type} (data : List α) (cs : ℕ)
    (h : 0 < cs) :
    (chunksOf data cs).length = (data.length + cs - 1) / cs
    ∧ (∀ c ∈ chunksOf data cs, c.length ≤ cs)
    ∧ (∀ i, i + 1 < (chunksOf data cs).length → (chunkAt data cs i).length = cs)
    ∧ (chunksOf data cs).flatten = data := by
  refine ⟨?_, ?_, ?_, ?_⟩
  · simp [chunksOf, num_chunks_eq_ceil _ _ h]
  · intro c hc
    simp only [chunksOf, List.mem_map] at hc
    obtain ⟨i, _, rfl⟩ := hc
    rw [length_chunkAt]
    exact Nat.min_le_left _ _
  · intro i hi
    simp only [chunksOf, List.length_map, List.length_range] at hi
    exact chunk_full_of_not_last data cs i h hi
  · rw [chunksOf, flatten_chunks_prefix]
    exact List.take_of_length_le (length_le_num_chunks_mul h)

set_option maxRecDepth 40000 in
/-- Witness for C1 at the spec's scenario: 1200 records with chunk
size 500 split into chunks of sizes 500, 500 and 200 whose
concatenation is the original data. -/
theorem chunking_partitions_exactly_witness :
    0 < 500
    ∧ (chunksOf (List.range 1200) 500).flatten = List.range 1200
    ∧ (chunksOf (List.range 1200) 500).map List.length = [500, 500, 200] :=
  ⟨by decide,
   (chunking_partitions_exactly (List.range 1200) 500 (by decide)).2.2.2,
   by decide⟩

theorem sendLoop_length_le {α : Type} (net : Network α) (data : List α)
    (cs : ℕ) : ∀ is_ : List ℕ,
    (sendLoop net data cs is_).length ≤ is_.length
  | [] => by simp [sendLoop]
  | i :: rest => by
      by_cases hr :
        responseTruthy (send_post_request net (chunkAt data cs i)) = true
      · simpa [sendLoop, hr] using sendLoop_length_le net data cs rest
      · simp [sendLoop, hr]

theorem sendLoop_map_fst {α : Type} (net : Network α) (data : List α)
    (cs : ℕ) : ∀ is_ : List ℕ,
    (sendLoop net data cs is_).map Prod.fst
      = is_.take (sendLoop net data cs is_).length
  | [] => by simp [sendLoop]
  | i :: rest => by
      by_cases hr :
        responseTruthy (send_post_request net (chunkAt data cs i)) = true
      · simp [sendLoop, hr, List.take_succ_cons,
          sendLoop_map_fst net data cs rest]
      · simp [sendLoop, hr]

theorem mem_sendLoop_mem {α : Type} (net : Network α) (data : List α)
    (cs : ℕ) : ∀ (is_ : List ℕ) (k : ℕ) (b : Bool),
    (k, b) ∈ sendLoop net data cs is_ → k ∈ is_
  | [], _, _ => by simp [sendLoop]
  | i :: rest, k, b => by
      by_cases hr :
        responseTruthy (send_post_request net (chunkAt data cs i)) = true
      · intro hmem
        rw [sendLoop, if_pos hr] at hmem
        rcases List.mem_cons.mp hmem with heq | hmem2
        · have hk : k = i := congrArg Prod.fst heq
          subst hk
          exact List.mem_cons_self _ _
        · exact List.mem_cons_of_mem _
            (mem_sendLoop_mem net data cs rest k b hmem2)
      · intro hmem
        rw [sendLoop, if_neg hr] at hmem
        have heq := List.mem_singleton.mp hmem
        have hk : k = i := congrArg Prod.fst heq
        subst hk
        exact List.mem_cons_self _ _

theorem sendLoop_fail_fast {α : Type} (net : Network α) (data : List α)
    (cs : ℕ) : ∀ is_ : List ℕ, is_.Pairwise (· < ·) →
    ∀ k j : ℕ, ∀ b : Bool, (k, false) ∈ sendLoop net data cs is_ → k < j →
    (j, b) ∉ sendLoop net data cs is_
  | [], _, k, j, b => by simp [sendLoop]
  | i :: rest, hp, k, j, b => by
      by_cases hr :
        responseTruthy (send_post_request net (chunkAt data cs i)) = true
      · intro hk hkj hj
        rw [sendLoop, if_pos hr] at hk hj
        rcases List.mem_cons.mp hk with heqk | hk2
        · exact Bool.false_ne_true (congrArg Prod.snd heqk)
        · rcases List.mem_cons.mp hj with heqj | hj2
          · have hji : j = i := congrArg Prod.fst heqj
            have hik : i < k := List.rel_of_pairwise_cons hp
              (mem_sendLoop_mem net data cs rest k false hk2)
            omega
          · exact sendLoop_fail_fast net data cs rest hp.of_cons
              k j b hk2 hkj hj2
      · intro hk hkj hj
        rw [sendLoop, if_neg hr] at hk hj
        have hki : k = i := congrArg Prod.fst (List.mem_singleton.mp hk)
        have hji : j = i := congrArg Prod.fst (List.mem_singleton.mp hj)
        omega

/-- C2: `send_data_in_chunks` submits chunks strictly sequentially in
index order — the reported chunk indices are exactly `0, 1, …` up to
the point the loop stops — and once some chunk is reported failed, no
chunk with a higher index is ever submitted or reported (fail-fast,
no retry, no resume). -/
theorem fail_fast_submission {α : Type} (net : Network α) (data : List α)
    (cs : ℕ) :
    (send_data_in_chunks net data cs).map Prod.fst
        = List.range (send_data_in_chunks net data cs).length
    ∧ ∀ k j : ℕ, ∀ b : Bool, (k, false) ∈ send_data_in_chunks net data cs →
        k < j → (j, b) ∉ send_data_in_chunks net data cs := by
  constructor
  · rw [send_data_in_chunks, sendLoop_map_fst, List.take_range]
    congr 1
    apply Nat.min_eq_left
    calc (sendLoop net data cs (List.range (num_chunks data.length cs))).length
        ≤ (List.range (num_chunks data.length cs)).length :=
          sendLoop_length_le net data cs _
    _ = num_chunks data.length cs := List.length_range _
  · intro k j b hk hkj
    exact sendLoop_fail_fast net data cs _
      (List.pairwise_lt_range _) k j b hk hkj

set_option maxRecDepth 40000 in
/-- Witness for C2 at the spec's scenario: 1200 records, chunk size
500, the second chunk's POST fails — the trace reports chunk 1 as
failed, and by the theorem chunk 2 is never reported at all. -/
theorem fail_fast_submission_witness :
    (1, false) ∈ send_data_in_chunks scenario_net (List.range 1200) 500
    ∧ (2, true) ∉ send_data_in_chunks scenario_net (List.range 1200) 500
    ∧ (2, false) ∉ send_data_in_chunks scenario_net (List.range 1200) 500 :=
  ⟨by decide,
   (fail_fast_submission scenario_net (List.range 1200) 500).2 1 2 true
     (by decide) (by decide),
   (fail_fast_submission scenario_net (List.range 1200) 500).2 1 2 false
     (by decide) (by decide)⟩

/-! ### Per-chunk success reporting -/

/-- Counterexample to C3 as stated: a POST answered with status 200
and the valid JSON body `[]` — a 2xx response — is reported as a
failure (the code tests Python truthiness of the decoded body, and
`[]` is falsy), and the remaining chunks are never submitted. -/
theorem success_regardless_of_body_cex :
    responseTruthy (send_post_request
        (fun _ => some (HttpResponse.mk 200 (some (Json.arr []))))
        ([0] : List ℕ)) = false
    ∧ send_data_in_chunks
        (fun _ => some (HttpResponse.mk 200 (some (Json.arr []))))
        ([0, 1, 2, 3] : List ℕ) 2 = [(0, false)] := by
  constructor
  · rfl
  · rfl

/-- C3 amended: a chunk is reported as a success exactly when its POST
yields a response whose status does not raise (it is outside 400–599,
not merely 2xx) and whose body decodes to a truthy JSON value; a 2xx
response with an undecodable or falsy body (`null`, `0`, `""`, `[]`,
`{}`, `false`) is reported as a failure. -/
theorem chunk_success_iff_truthy_body {α : Type} (net : Network α)
    (chunk : List α) :
    responseTruthy (send_post_request net chunk) = true
      ↔ ∃ r : HttpResponse, net chunk = some r
          ∧ ¬(400 ≤ r.status ∧ r.status < 600)
          ∧ ∃ j : Json, r.body = some j ∧ truthy j = true := by
  cases hn : net chunk with
  | none => simp [send_post_request, responseTruthy, hn]
  | some r =>
      by_cases hs : 400 ≤ r.status ∧ r.status < 600
      · simp [send_post_request, responseTruthy, hn, hs]
      · cases hb : r.body with
        | none => simp [send_post_request, responseTruthy, hn, hs, hb]
        | some j =>
            have hspr : send_post_request net chunk = some j := by
              simp [send_post_request, hn, hs, hb]
            rw [hspr]
            constructor
            · intro ht
              exact ⟨r, rfl, hs, j, hb, ht⟩
            · rintro ⟨r2, hr2, -, j2, hb2, ht2⟩
              rw [Option.some.injEq] at hr2
              subst hr2
              rw [hb, Option.some.injEq] at hb2
              subst hb2
              exact ht2

/-- Witness for the amended C3: a 200 response with the truthy body
`"ok"` is reported as a success. -/
theorem chunk_success_iff_truthy_body_witness :
    responseTruthy (send_post_request
        (fun _ => some (HttpResponse.mk 200 (some (Json.str "ok"))))
        ([0, 1] : List ℕ)) = true :=
  (chunk_success_iff_truthy_body _ [0, 1]).mpr
    ⟨HttpResponse.mk 200 (some (Json.str "ok")), rfl, by decide,
     Json.str "ok", rfl, by decide⟩

/-! ### File ingestion -/

/-- C9: `process_uploaded_file` never propagates a failure to its
caller: an unsupported extension or a failed parse yields the `None`
sentinel (after the caught exception is surfaced with `st.error`),
and `main` runs the downstream pipeline only when the sentinel is
absent. -/
theorem ingestion_failure_yields_sentinel
    (read_csv read_json : String → Option DataFrame) (name content : String) :
    (file_extension name ≠ "csv" → file_extension name ≠ "json" →
      process_uploaded_file read_csv read_json name content = none)
    ∧ (file_extension name = "csv" → read_csv content = none →
      process_uploaded_file read_csv read_json name content = none)
    ∧ (file_extension name = "json" → read_json content = none →
      process_uploaded_file read_csv read_json name content = none)
    ∧ (process_uploaded_file read_csv read_json name content = none →
      main_pipeline read_csv read_json (some (name, content)) = none) := by
  refine ⟨?_, ?_, ?_, ?_⟩
  · intro h1 h2
    simp [process_uploaded_file, h1, h2]
  · intro h1 h2
    simp [process_uploaded_file, h1, h2]
  · intro h1 h2
    simp [process_uploaded_file, h1, h2]
  · intro h
    simp [main_pipeline, h]

/-- Witness for C9: a file named `data.xyz` produces the sentinel and
the downstream pipeline is skipped. -/
theorem ingestion_failure_yields_sentinel_witness :
    process_uploaded_file (fun _ => some []) (fun _ => some [])
        "data.xyz" "a,b" = none
    ∧ main_pipeline (fun _ => some []) (fun _ => some [])
        (some ("data.xyz", "a,b")) = none := by
  have h := ingestion_failure_yields_sentinel
    (fun _ => some []) (fun _ => some []) "data.xyz" "a,b"
  exact ⟨h.1 (by decide) (by decide),
         h.2.2.2 (h.1 (by decide) (by decide))⟩

/-- C10: the parser is selected from the substring after the last dot
of the filename, compared case-sensitively against exactly `"csv"` and
`"json"`; every other last segment takes the unsupported-format path
and yields no dataset. -/
theorem extension_dispatch_is_case_sensitive
    (read_csv read_json : String → Option DataFrame) (name content : String)
    (h1 : file_extension name ≠ "csv") (h2 : file_extension name ≠ "json") :
    process_uploaded_file read_csv read_json name content = none := by
  simp [process_uploaded_file, h1, h2]

/-- Witness for C10: `data.CSV`, `data.Json` and `data.csv.bak` all
have a last dot-segment different from `csv`/`json` and are rejected,
even though parsing itself would succeed. -/
theorem extension_dispatch_is_case_sensitive_witness :
    file_extension "data.CSV" = "CSV"
    ∧ file_extension "data.csv.bak" = "bak"
    ∧ process_uploaded_file (fun _ => some []) (fun _ => some [])
        "data.CSV" "x" = none
    ∧ process_uploaded_file (fun _ => some []) (fun _ => some [])
        "data.Json" "x" = none
    ∧ process_uploaded_file (fun _ => some []) (fun _ => some [])
        "data.csv.bak" "x" = none :=
  ⟨by decide, by decide,
   extension_dispatch_is_case_sensitive _ _ "data.CSV" "x"
     (by decide) (by decide),
   extension_dispatch_is_case_sensitive _ _ "data.Json" "x"
     (by decide) (by decide),
   extension_dispatch_is_case_sensitive _ _ "data.csv.bak" "x"
     (by decide) (by decide)⟩

/-! ### Cleaning pipeline: deduplication lemmas -/

theorem dedupFrom_sublist {α : Type} [DecidableEq α] :
    ∀ (seen : List α) (l : List α), (dedupFrom seen l).Sublist l
  | _, [] => List.Sublist.refl _
  | seen, r :: rest => by
      rw [dedupFrom]
      by_cases hmem : r ∈ seen
      · simp only [hmem, if_true]
        exact (dedupFrom_sublist seen rest).cons r
      · simp only [hmem, if_false]
        exact (dedupFrom_sublist (r :: seen) rest).cons₂ r

theorem mem_dedupFrom_not_seen {α : Type} [DecidableEq α] :
    ∀ (seen : List α) (l : List α) (x : α),
    x ∈ dedupFrom seen l → x ∉ seen
  | seen, [], x => by simp [dedupFrom]
  | seen, r :: rest, x => by
      rw [dedupFrom]
      by_cases hmem : r ∈ seen
      · simp only [hmem, if_true]
        exact mem_dedupFrom_not_seen seen rest x
      · simp only [hmem, if_false, List.mem_cons]
        rintro (rfl | hx)
        · exact hmem
        · intro hseen
          exact mem_dedupFrom_not_seen (r :: seen) rest x hx
            (List.mem_cons_of_mem _ hseen)

theorem dedupFrom_nodup {α : Type} [DecidableEq α] :
    ∀ (seen : List α) (l : List α), (dedupFrom seen l).Nodup
  | _, [] => List.nodup_nil
  | seen, r :: rest => by
      rw [dedupFrom]
      by_cases hmem : r ∈ seen
      · simp only [hmem, if_true]
        exact dedupFrom_nodup seen rest
      · simp only [hmem, if_false, List.nodup_cons]
        refine ⟨fun hx => ?_, dedupFrom_nodup (r :: seen) rest⟩
        exact mem_dedupFrom_not_seen (r :: seen) rest r hx
          (List.mem_cons_self _ _)

theorem dedupFrom_eq_self {α : Type} [DecidableEq α] :
    ∀ (seen : List α) (l : List α), l.Nodup → (∀ x ∈ l, x ∉ seen) →
    dedupFrom seen l = l
  | _, [], _, _ => rfl
  | seen, r :: rest, hnd, hdisj => by
      rw [dedupFrom, if_neg (hdisj r (List.mem_cons_self _ _))]
      congr 1
      apply dedupFrom_eq_self (r :: seen) rest (List.Nodup.of_cons hnd)
      intro x hx
      rw [List.mem_cons]
      rintro (rfl | hseen)
      · exact (List.nodup_cons.mp hnd).1 hx
      · exact hdisj x (List.mem_cons_of_mem _ hx) hseen

theorem drop_duplicates_nodup (df : DataFrame) :
    (drop_duplicates df).Nodup :=
  dedupFrom_nodup [] df

theorem drop_duplicates_length_le (df : DataFrame) :
    (drop_duplicates df).length ≤ df.length :=
  (dedupFrom_sublist [] df).length_le

theorem drop_duplicates_eq_self {df : DataFrame} (h : df.Nodup) :
    drop_duplicates df = df :=
  dedupFrom_eq_self [] df h (by simp)

/-! ### Cleaning pipeline: column access lemmas -/

theorem getElem?_applyIdx (g : ℕ → Value → Value) :
    ∀ (r : List Value) (j0 j : ℕ),
    (applyIdx g j0 r)[j]? = (r[j]?).map (g (j0 + j))
  | [], j0, j => by simp [applyIdx]
  | v :: r, j0, 0 => by simp [applyIdx]
  | v :: r, j0, j + 1 => by
      have harith : j0 + (j + 1) = (j0 + 1) + j := by omega
      rw [applyIdx, List.getElem?_cons_succ, List.getElem?_cons_succ,
        getElem?_applyIdx g r (j0 + 1) j, harith]

theorem col_map_applyIdx (g : ℕ → Value → Value) (df : DataFrame) (j : ℕ) :
    col (df.map (applyIdx g 0)) j = (col df j).map (g j) := by
  rw [col, col, List.filterMap_map, List.map_filterMap]
  apply List.filterMap_congr
  intro r _
  rw [Function.comp_apply, getElem?_applyIdx g r 0 j, Nat.zero_add]

theorem mem_col_iff {df : DataFrame} {j : ℕ} {v : Value} :
    v ∈ col df j ↔ ∃ r ∈ df, r[j]? = some v := by
  simp [col, List.mem_filterMap]

/-! ### Cleaning pipeline: coercion and fill lemmas -/

theorem col_coerceStep (df : DataFrame) (j : ℕ) :
    col (coerceStep df) j =
      if colCoercible df j then (col df j).map coerceVal else col df j := by
  rw [coerceStep, col_map_applyIdx]
  cases h : colCoercible df j
  · simp [h]
  · simp [h]

theorem col_fillStep (df : DataFrame) (j : ℕ) :
    col (fillStep df) j =
      if colIsNumeric df j then
        (col df j).map (fun v =>
          match colMean df j, v with
          | some m, Value.null => Value.num m
          | _, _ => v)
      else col df j := by
  rw [fillStep, col_map_applyIdx]
  cases h : colIsNumeric df j
  · simp [h]
  · simp [h]

theorem coerceVal_isNumOrNull {v : Value} (h : (toNumVal v).isSome = true) :
    isNumOrNull (coerceVal v) = true := by
  cases v with
  | null => rfl
  | num q => rfl
  | str s =>
      rw [toNumVal] at h
      cases hp : parseNum s with
      | none => rw [hp] at h; simp at h
      | some q => simp [coerceVal, toNumVal, hp, isNumOrNull]

theorem coerceVal_eq_self_of_isNumOrNull {v : Value}
    (h : isNumOrNull v = true) : coerceVal v = v := by
  cases v with
  | null => rfl
  | num q => rfl
  | str s => simp [isNumOrNull] at h

theorem isNumOrNull_isSome {v : Value} (h : isNumOrNull v = true) :
    (toNumVal v).isSome = true := by
  cases v with
  | null => rfl
  | num q => rfl
  | str s => simp [isNumOrNull] at h

theorem col_coerceStep_numeric (df : DataFrame) (j : ℕ)
    (h : colCoercible df j = true) :
    colIsNumeric (coerceStep df) j = true := by
  rw [colIsNumeric, List.all_eq_true]
  intro v hv
  rw [col_coerceStep, h, if_pos rfl] at hv
  obtain ⟨w, hw, rfl⟩ := List.mem_map.mp hv
  rw [colCoercible, List.all_eq_true] at h
  exact coerceVal_isNumOrNull (h w hw)

/-- C7: coercion in `clean_data` is column-wide and all-or-nothing:
if some value of a column fails to coerce, the whole column is left
unchanged; if every value coerces, every value is converted and the
column becomes numeric. -/
theorem coercion_all_or_nothing (df : DataFrame) (j : ℕ) :
    (colCoercible df j = false → col (coerceStep df) j = col df j)
    ∧ (colCoercible df j = true →
        col (coerceStep df) j = (col df j).map coerceVal
        ∧ ∀ v ∈ col (coerceStep df) j, isNumOrNull v = true) := by
  constructor
  · intro h
    rw [col_coerceStep, h]
    simp
  · intro h
    refine ⟨by rw [col_coerceStep, h, if_pos rfl], ?_⟩
    intro v hv
    have hn := col_coerceStep_numeric df j h
    rw [colIsNumeric, List.all_eq_true] at hn
    exact hn v hv

/-- Witness for C7: the column `["1", "x"]` has a non-coercible value
and is left fully unchanged, while the column `["1", "2"]` is
converted wholesale. -/
theorem coercion_all_or_nothing_witness :
    colCoercible [[Value.str "1"], [Value.str "x"]] 0 = false
    ∧ col (coerceStep [[Value.str "1"], [Value.str "x"]]) 0
        = col [[Value.str "1"], [Value.str "x"]] 0
    ∧ colCoercible [[Value.str "1"], [Value.str "2"]] 0 = true
    ∧ col (coerceStep [[Value.str "1"], [Value.str "2"]]) 0
        = (col [[Value.str "1"], [Value.str "2"]] 0).map coerceVal :=
  ⟨by decide,
   (coercion_all_or_nothing [[Value.str "1"], [Value.str "x"]] 0).1 (by decide),
   by decide,
   ((coercion_all_or_nothing [[Value.str "1"], [Value.str "2"]] 0).2
     (by decide)).1⟩

/-- C6: in every column that is fully numeric after deduplication and
coercion and that has at least one non-missing value (its mean is
defined and equals `m`), cleaning replaces exactly the missing values
by `m`, keeps the non-missing values unchanged, and leaves the column
without any missing value. -/
theorem mean_fill_numeric (df : DataFrame) (j : ℕ) (m : ℚ)
    (hnum : colIsNumeric (coerceStep (drop_duplicates df)) j = true)
    (hm : colMean (coerceStep (drop_duplicates df)) j = some m) :
    col (clean_data df) j
      = (col (coerceStep (drop_duplicates df)) j).map
          (fun v => if v = Value.null then Value.num m else v)
    ∧ ∀ v ∈ col (clean_data df) j, v ≠ Value.null := by
  have h1 : col (clean_data df) j
      = (col (coerceStep (drop_duplicates df)) j).map
          (fun v => if v = Value.null then Value.num m else v) := by
    rw [clean_data, col_fillStep, hnum, if_pos rfl]
    apply List.map_congr_left
    intro v _
    rw [hm]
    cases v <;> simp
  refine ⟨h1, ?_⟩
  intro v hv
  rw [h1] at hv
  obtain ⟨w, hw, rfl⟩ := List.mem_map.mp hv
  by_cases hwn : w = Value.null
  · simp [hwn]
  · simp [hwn]

/-- Witness for C6 at the spec's scenario: the numeric column
`[1, 2, missing]` is cleaned to `[1, 2, 1.5]` and contains no
missing value. -/
theorem mean_fill_numeric_witness :
    col (clean_data [[Value.num 1], [Value.num 2], [Value.null]]) 0
      = [Value.num 1, Value.num 2, Value.num (3 / 2)]
    ∧ ∀ v ∈ col (clean_data [[Value.num 1], [Value.num 2], [Value.null]]) 0,
        v ≠ Value.null := by
  have hco : coerceStep (drop_duplicates
      [[Value.num 1], [Value.num 2], [Value.null]])
      = [[Value.num 1], [Value.num 2], [Value.null]] := by decide
  have hm : colMean [[Value.num 1], [Value.num 2], [Value.null]] 0
      = some (3 / 2) := by
    norm_num [colMean, colNums, col, List.filterMap_cons]
  have hnum : colIsNumeric [[Value.num 1], [Value.num 2], [Value.null]] 0
      = true := by decide
  have h := mean_fill_numeric [[Value.num 1], [Value.num 2], [Value.null]] 0
    (3 / 2) (by rw [hco]; exact hnum) (by rw [hco]; exact hm)
  refine ⟨h.1.trans ?_, h.2⟩
  rw [hco]
  norm_num [col, List.filterMap_cons]
  decide

/-! ### Row count and duplicates in the cleaned output -/

/-- Counterexample to C5 as stated: cleaning `[[2], [missing]]`
mean-fills the missing cell with the column mean 2, so the cleaned
output contains two equal rows. -/
theorem clean_output_has_duplicates_cex :
    clean_data [[Value.num 2], [Value.null]]
      = [[Value.num 2], [Value.num 2]]
    ∧ ¬ (clean_data [[Value.num 2], [Value.null]]).Nodup := by
  have hd : drop_duplicates [[Value.num 2], [Value.null]]
      = [[Value.num 2], [Value.null]] := by decide
  have hc : coerceStep [[Value.num 2], [Value.null]]
      = [[Value.num 2], [Value.null]] := by decide
  have hm : colMean [[Value.num 2], [Value.null]] 0 = some 2 := by
    norm_num [colMean, colNums, col, List.filterMap_cons]
  have hn : colIsNumeric [[Value.num 2], [Value.null]] 0 = true := by decide
  have heq : clean_data [[Value.num 2], [Value.null]]
      = [[Value.num 2], [Value.num 2]] := by
    rw [clean_data, hd, hc]
    simp [fillStep, applyIdx, hm, hn]
  refine ⟨heq, ?_⟩
  rw [heq]
  simp

/-- C5 amended: cleaning never increases the row count, and the
deduplication stage produces no duplicate rows — but the subsequent
mean-fill can make previously distinct rows equal, so the final
output may contain duplicates. -/
theorem clean_row_count_le_and_dedup_nodup (df : DataFrame) :
    (clean_data df).length ≤ df.length
    ∧ (drop_duplicates df).Nodup := by
  constructor
  · rw [clean_data, fillStep, coerceStep, List.length_map, List.length_map]
    exact drop_duplicates_length_le df
  · exact drop_duplicates_nodup df

/-! ### Idempotence of cleaning -/

theorem list_map_eq_self {α : Type} {l : List α} {f : α → α}
    (h : ∀ x ∈ l, f x = x) : l.map f = l := by
  induction l with
  | nil => rfl
  | cons a t ih =>
      rw [List.map_cons, h a (List.mem_cons_self _ _),
        ih (fun x hx => h x (List.mem_cons_of_mem _ hx))]

theorem applyIdx_eq_self (g : ℕ → Value → Value) :
    ∀ (r : List Value) (j0 : ℕ),
    (∀ j v, r[j]? = some v → g (j0 + j) v = v) → applyIdx g j0 r = r
  | [], _, _ => rfl
  | v :: r, j0, h => by
      rw [applyIdx]
      have hhead : g j0 v = v := by
        have := h 0 v (by simp)
        simpa using this
      rw [hhead]
      congr 1
      apply applyIdx_eq_self g r (j0 + 1)
      intro j w hw
      have harith : j0 + (j + 1) = j0 + 1 + j := by omega
      have := h (j + 1) w (by simpa using hw)
      rwa [harith] at this

theorem map_applyIdx_eq_self (g : ℕ → Value → Value) (df : DataFrame)
    (h : ∀ j v, v ∈ col df j → g j v = v) : df.map (applyIdx g 0) = df := by
  apply list_map_eq_self
  intro r hr
  apply applyIdx_eq_self g r 0
  intro j v hv
  rw [Nat.zero_add]
  exact h j v (mem_col_iff.mpr ⟨r, hr, hv⟩)

/-- Every column of a cleaned dataframe either consists entirely of
numeric-kind cells, or is exactly the corresponding column of the
deduplicated input, whose coercion failed. -/
theorem clean_col_dichotomy (df : DataFrame) (j : ℕ) :
    (∀ v ∈ col (clean_data df) j, isNumOrNull v = true)
    ∨ (col (clean_data df) j = col (drop_duplicates df) j
       ∧ colCoercible (drop_duplicates df) j = false) := by
  cases hcn : colIsNumeric (coerceStep (drop_duplicates df)) j
  · right
    have hf : col (clean_data df) j
        = col (coerceStep (drop_duplicates df)) j := by
      rw [clean_data, col_fillStep, hcn]
      simp
    cases hcc : colCoercible (drop_duplicates df) j
    · refine ⟨?_, rfl⟩
      rw [hf, col_coerceStep, hcc]
      simp
    · exact absurd (col_coerceStep_numeric _ j hcc) (by rw [hcn]; simp)
  · left
    intro v hv
    rw [clean_data, col_fillStep, hcn, if_pos rfl] at hv
    obtain ⟨w, hw, rfl⟩ := List.mem_map.mp hv
    have hwn : isNumOrNull w = true := by
      rw [colIsNumeric, List.all_eq_true] at hcn
      exact hcn w hw
    cases hm : colMean (coerceStep (drop_duplicates df)) j with
    | none => cases w <;> simpa [hm] using hwn
    | some m => cases w <;> simp [hm, isNumOrNull] at hwn ⊢

theorem coerceStep_clean_eq (df : DataFrame) :
    coerceStep (clean_data df) = clean_data df := by
  rw [coerceStep]
  apply map_applyIdx_eq_self
  intro j v hv
  cases hcc : colCoercible (clean_data df) j
  · simp
  · simp only [if_pos rfl]
    rcases clean_col_dichotomy df j with hall | ⟨hcol, hfail⟩
    · exact coerceVal_eq_self_of_isNumOrNull (hall v hv)
    · rw [colCoercible, hcol] at hcc
      rw [colCoercible] at hfail
      rw [hcc] at hfail
      exact absurd hfail (by simp)

/-- A missing value surviving in a numeric column of the cleaned
output forces that column's mean to be undefined (the column is
entirely missing). -/
theorem clean_null_mean_none (df : DataFrame) (j : ℕ)
    (hni : colIsNumeric (clean_data df) j = true)
    (hv : Value.null ∈ col (clean_data df) j) :
    colMean (clean_data df) j = none := by
  cases hcn : colIsNumeric (coerceStep (drop_duplicates df)) j
  · have hf : col (clean_data df) j
        = col (coerceStep (drop_duplicates df)) j := by
      rw [clean_data, col_fillStep, hcn]
      simp
    rw [colIsNumeric, hf] at hni
    rw [colIsNumeric] at hcn
    rw [hcn] at hni
    exact absurd hni (by simp)
  · cases hm : colMean (coerceStep (drop_duplicates df)) j with
    | some m =>
        exfalso
        rw [clean_data, col_fillStep, hcn, if_pos rfl] at hv
        obtain ⟨w, hw, hweq⟩ := List.mem_map.mp hv
        rw [hm] at hweq
        cases w with
        | null => exact Value.noConfusion hweq
        | num q => exact Value.noConfusion hweq
        | str s => exact Value.noConfusion hweq
    | none =>
        have hf : col (clean_data df) j
            = col (coerceStep (drop_duplicates df)) j := by
          rw [clean_data, col_fillStep, hcn, if_pos rfl]
          apply list_map_eq_self
          intro w hw
          rw [hm]
        rw [colMean, colNums, hf]
        rw [colMean, colNums] at hm
        exact hm

theorem fillStep_clean_eq (df : DataFrame) :
    fillStep (clean_data df) = clean_data df := by
  rw [fillStep]
  apply map_applyIdx_eq_self
  intro j v hv
  cases hni : colIsNumeric (clean_data df) j
  · simp
  · cases v with
    | null =>
        have hmean := clean_null_mean_none df j hni hv
        simp [hmean]
    | num q => cases hmc : colMean (clean_data df) j <;> simp [hmc]
    | str s => cases hmc : colMean (clean_data df) j <;> simp [hmc]

/-- Counterexample to C4 as stated: cleaning `[[4], [missing]]`
mean-fills the missing cell, producing the duplicate rows
`[[4], [4]]`; cleaning once more deduplicates them, so the second
clean differs from the first. -/
theorem clean_idempotent_cex :
    clean_data (clean_data [[Value.num 4], [Value.null]])
      ≠ clean_data [[Value.num 4], [Value.null]] := by
  have hd : drop_duplicates [[Value.num 4], [Value.null]]
      = [[Value.num 4], [Value.null]] := by decide
  have hc : coerceStep [[Value.num 4], [Value.null]]
      = [[Value.num 4], [Value.null]] := by decide
  have hm : colMean [[Value.num 4], [Value.null]] 0 = some 4 := by
    norm_num [colMean, colNums, col, List.filterMap_cons]
  have hn : colIsNumeric [[Value.num 4], [Value.null]] 0 = true := by decide
  have h1 : clean_data [[Value.num 4], [Value.null]]
      = [[Value.num 4], [Value.num 4]] := by
    rw [clean_data, hd, hc]
    simp [fillStep, applyIdx, hm, hn]
  have hd2 : drop_duplicates [[Value.num 4], [Value.num 4]]
      = [[Value.num 4]] := by decide
  have hc2 : coerceStep [[Value.num 4]] = [[Value.num 4]] := by decide
  have hm2 : colMean [[Value.num 4]] 0 = some 4 := by
    norm_num [colMean, colNums, col, List.filterMap_cons]
  have hn2 : colIsNumeric [[Value.num 4]] 0 = true := by decide
  have h2 : clean_data [[Value.num 4], [Value.num 4]] = [[Value.num 4]] := by
    rw [clean_data, hd2, hc2]
    simp [fillStep, applyIdx, hm2, hn2]
  rw [h1, h2]
  simp

/-- C4 amended: cleaning is idempotent on every dataset whose cleaned
output is free of duplicate rows; in general the mean-fill stage can
make rows equal, and only the renewed deduplication makes a second
clean differ from the first. -/
theorem clean_idempotent_amended (df : DataFrame)
    (h : (clean_data df).Nodup) :
    clean_data (clean_data df) = clean_data df := by
  conv_lhs => rw [clean_data]
  rw [drop_duplicates_eq_self h, coerceStep_clean_eq, fillStep_clean_eq]

/-- Witness for the amended C4: a dataset with no missing values
cleans to itself, duplicate-free, and a second clean is the
identity. -/
theorem clean_idempotent_amended_witness :
    (clean_data [[Value.num 1], [Value.num 2]]).Nodup
    ∧ clean_data (clean_data [[Value.num 1], [Value.num 2]])
        = clean_data [[Value.num 1], [Value.num 2]] :=
  ⟨by decide, clean_idempotent_amended [[Value.num 1], [Value.num 2]]
    (by decide)⟩

/-! ### Sorted aggregations: string order lemmas -/

theorem strLtL_asymm : ∀ as bs : List Char,
    strLtL as bs = true → strLtL bs as = false
  | [], [] => by simp [strLtL]
  | [], _ :: _ => by simp [strLtL]
  | _ :: _, [] => by simp [strLtL]
  | a :: as, b :: bs => by
      rw [strLtL, strLtL]
      by_cases h1 : a.toNat < b.toNat
      · have h2 : ¬ b.toNat < a.toNat := by omega
        simp [h1, h2]
      · by_cases h2 : b.toNat < a.toNat
        · simp [h1, h2]
        · simp [h1, h2]
          exact strLtL_asymm as bs

theorem strLtL_trans : ∀ as bs cs : List Char,
    strLtL as bs = true → strLtL bs cs = true → strLtL as cs = true
  | [], [], _ => by simp [strLtL]
  | [], _ :: _, [] => by simp [strLtL]
  | [], _ :: _, _ :: _ => by simp [strLtL]
  | _ :: _, [], _ => by simp [strLtL]
  | _ :: _, _ :: _, [] => by simp [strLtL]
  | a :: as, b :: bs, c :: cs => by
      rw [strLtL, strLtL, strLtL]
      by_cases h1 : a.toNat < b.toNat
      · by_cases h2 : b.toNat < c.toNat
        · have h3 : a.toNat < c.toNat := by omega
          simp [h1, h2, h3]
        · by_cases h4 : c.toNat < b.toNat
          · simp [h1, h2, h4]
          · have h3 : a.toNat < c.toNat := by omega
            simp [h1, h2, h3, h4]
      · by_cases h5 : b.toNat < a.toNat
        · simp [h1, h5]
        · by_cases h2 : b.toNat < c.toNat
          · have h3 : a.toNat < c.toNat := by omega
            simp [h1, h5, h2, h3]
          · by_cases h4 : c.toNat < b.toNat
            · simp [h1, h5, h2, h4]
            · have h3 : ¬ a.toNat < c.toNat := by omega
              have h6 : ¬ c.toNat < a.toNat := by omega
              simp [h1, h5, h2, h4, h3, h6]
              exact strLtL_trans as bs cs

theorem strLtL_eq_of_not_lt : ∀ as bs : List Char,
    strLtL as bs = false → strLtL bs as = false → as = bs
  | [], [] => by simp
  | [], _ :: _ => by simp [strLtL]
  | _ :: _, [] => by simp [strLtL]
  | a :: as, b :: bs => by
      rw [strLtL, strLtL]
      by_cases h1 : a.toNat < b.toNat
      · simp [h1]
      · by_cases h2 : b.toNat < a.toNat
        · simp [h1, h2]
        · simp [h1, h2]
          intro hab hba
          have hnat : a.toNat = b.toNat := by omega
          have hchar : a = b := Char.ext (UInt32.toNat.inj hnat)
          exact ⟨hchar, strLtL_eq_of_not_lt as bs hab hba⟩

theorem strLt_of_le_of_ne {a b : String} (hle : strLeB a b = true)
    (hne : a ≠ b) : strLt a b := by
  have hba : strLtL b.toList a.toList = false := by
    simpa [strLeB] using hle
  rw [strLt]
  cases hab : strLtL a.toList b.toList
  · exact absurd (String.ext (strLtL_eq_of_not_lt a.toList b.toList hab hba))
      hne
  · rfl

theorem strLt_trans {a b c : String} (h1 : strLt a b) (h2 : strLt b c) :
    strLt a c :=
  strLtL_trans a.toList b.toList c.toList h1 h2

theorem strLeB_total (a b : String) :
    strLeB a b = true ∨ strLeB b a = true := by
  rw [strLeB, strLeB]
  cases hba : strLtL b.toList a.toList
  · left
    rfl
  · right
    rw [strLtL_asymm b.toList a.toList hba]
    rfl

theorem strLeB_trans {a b c : String} (h1 : strLeB a b = true)
    (h2 : strLeB b c = true) : strLeB a c = true := by
  have hba : strLtL b.toList a.toList = false := by
    simpa [strLeB] using h1
  have hcb : strLtL c.toList b.toList = false := by
    simpa [strLeB] using h2
  rw [strLeB]
  cases hca : strLtL c.toList a.toList
  · rfl
  · exfalso
    cases hbc : strLtL b.toList c.toList
    · have heq : c.toList = b.toList :=
        strLtL_eq_of_not_lt c.toList b.toList hcb hbc
      rw [heq] at hca
      rw [hca] at hba
      exact Bool.noConfusion hba
    · have hlt := strLtL_trans b.toList c.toList a.toList hbc hca
      rw [hlt] at hba
      exact Bool.noConfusion hba

/-! ### Sorted aggregations: descending order with reversed ties -/

theorem rlex_trans {p q r : String × ℚ}
    (h1 : p.2 < q.2 ∨ (p.2 = q.2 ∧ strLt p.1 q.1))
    (h2 : q.2 < r.2 ∨ (q.2 = r.2 ∧ strLt q.1 r.1)) :
    p.2 < r.2 ∨ (p.2 = r.2 ∧ strLt p.1 r.1) := by
  rcases h1 with h1 | ⟨he1, hs1⟩
  · rcases h2 with h2 | ⟨he2, hs2⟩
    · exact Or.inl (h1.trans h2)
    · exact Or.inl (he2 ▸ h1)
  · rcases h2 with h2 | ⟨he2, hs2⟩
    · exact Or.inl (he1 ▸ h2)
    · exact Or.inr ⟨he1.trans he2, strLt_trans hs1 hs2⟩

theorem group_sum_pairwise_key (pairs : List (String × ℚ)) :
    (group_sum pairs).Pairwise (fun p q => strLt p.1 q.1) := by
  rw [group_sum, List.pairwise_map]
  haveI hto : IsTotal String (fun a b => strLeB a b = true) := ⟨strLeB_total⟩
  haveI htr : IsTrans String (fun a b => strLeB a b = true) :=
    ⟨fun a b c h1 h2 => strLeB_trans h1 h2⟩
  have hsorted := List.sorted_insertionSort
    (fun a b => strLeB a b = true) (pairs.map Prod.fst).dedup
  have hnodup : (List.insertionSort (fun a b => strLeB a b = true)
      (pairs.map Prod.fst).dedup).Nodup :=
    (List.perm_insertionSort _ _).symm.nodup (List.nodup_dedup _)
  exact (List.Pairwise.and hsorted hnodup).imp
    (fun hab => strLt_of_le_of_ne hab.1 hab.2)

theorem orderedInsert_pairwise_lex :
    ∀ (s : List (String × ℚ)) (x : String × ℚ),
    s.Pairwise (fun p q => p.2 < q.2 ∨ (p.2 = q.2 ∧ strLt p.1 q.1)) →
    (∀ y ∈ s, strLt x.1 y.1) →
    (List.orderedInsert (fun p q => p.2 ≤ q.2) x s).Pairwise
      (fun p q => p.2 < q.2 ∨ (p.2 = q.2 ∧ strLt p.1 q.1))
  | [], x, _, _ => by simp
  | y :: ys, x, hs, hkey => by
      rw [List.orderedInsert]
      by_cases hle : x.2 ≤ y.2
      · rw [if_pos hle]
        refine List.pairwise_cons.mpr ⟨?_, hs⟩
        intro z hz
        have hxy : x.2 < y.2 ∨ (x.2 = y.2 ∧ strLt x.1 y.1) := by
          rcases lt_or_eq_of_le hle with hlt | heq
          · exact Or.inl hlt
          · exact Or.inr ⟨heq, hkey y (List.mem_cons_self _ _)⟩
        rcases List.mem_cons.mp hz with rfl | hz2
        · exact hxy
        · exact rlex_trans hxy (List.rel_of_pairwise_cons hs hz2)
      · rw [if_neg hle]
        refine List.pairwise_cons.mpr ⟨?_, ?_⟩
        · intro z hz
          rcases (List.mem_orderedInsert _).mp hz with rfl | hz2
          · exact Or.inl (lt_of_not_le hle)
          · exact List.rel_of_pairwise_cons hs hz2
        · exact orderedInsert_pairwise_lex ys x hs.of_cons
            (fun y2 hy2 => hkey y2 (List.mem_cons_of_mem _ hy2))

theorem insertionSort_pairwise_lex :
    ∀ s : List (String × ℚ),
    s.Pairwise (fun p q => strLt p.1 q.1) →
    (List.insertionSort (fun p q => p.2 ≤ q.2) s).Pairwise
      (fun p q => p.2 < q.2 ∨ (p.2 = q.2 ∧ strLt p.1 q.1))
  | [], _ => by simp
  | x :: s, hk => by
      rw [List.insertionSort]
      apply orderedInsert_pairwise_lex _ x
        (insertionSort_pairwise_lex s hk.of_cons)
      intro y hy
      exact List.rel_of_pairwise_cons hk
        (((List.perm_insertionSort _ s).mem_iff).mp hy)

theorem sort_values_desc_pairwise (s : List (String × ℚ))
    (hk : s.Pairwise (fun p q => strLt p.1 q.1)) :
    (sort_values_desc s).Pairwise
      (fun p q => q.2 < p.2 ∨ (q.2 = p.2 ∧ strLt q.1 p.1)) := by
  rw [sort_values_desc, List.pairwise_reverse]
  exact insertionSort_pairwise_lex s hk

theorem sorted_output_desc (pairs : List (String × ℚ)) :
    (sort_values_desc (group_sum pairs)).Pairwise (fun p q => q.2 ≤ p.2)
    ∧ (sort_values_desc (group_sum pairs)).Pairwise
        (fun p q => q.2 < p.2 ∨ (q.2 = p.2 ∧ strLt q.1 p.1)) := by
  have h := sort_values_desc_pairwise _ (group_sum_pairwise_key pairs)
  exact ⟨h.imp (fun hr => hr.elim (fun hlt => le_of_lt hlt)
    (fun hand => le_of_eq hand.1)), h⟩

/-- Counterexample to C8 as stated: with two energy sources `a` and
`b` whose production sums tie at 100, the sorted output lists `b`
before `a`, the reverse of the keys' lexical order — the library
reverses a stable ascending sort, so tied groups do not retain key
order. -/
theorem sorted_aggregations_tie_order_cex :
    (identify_major_energy_sources
        [⟨"a", 100, 100, "a", 100, 100⟩, ⟨"b", 100, 100, "b", 100, 100⟩]).1
      = [("b", 100), ("a", 100)]
    ∧ strLt "a" "b" := by
  constructor
  · have hle : strLeB "a" "b" = true := by decide
    have e1 : decide (("b" : String) = "a") = false := by decide
    have e2 : decide (("a" : String) = "b") = false := by decide
    norm_num [identify_major_energy_sources, group_sum, sort_values_desc,
      List.insertionSort, List.orderedInsert, List.dedup_cons_of_not_mem,
      hle, e1, e2, List.filter, List.sum_cons]
  · exact (by decide : strLtL "a".toList "b".toList = true)

/-- C8 amended: each of the four sorted aggregation outputs
(production and consumption sums by energy source, import and export
sums by country) is monotonically non-increasing by value; groups with
tied values appear in the reverse of the grouping key's ascending
lexical order, since the descending sort is the reversal of a stable
ascending sort over the key-sorted groups. -/
theorem sorted_aggregations_monotone (df : List EnergyRow) :
    ((identify_major_energy_sources df).1.Pairwise (fun p q => q.2 ≤ p.2)
      ∧ (identify_major_energy_sources df).1.Pairwise
          (fun p q => q.2 < p.2 ∨ (q.2 = p.2 ∧ strLt q.1 p.1)))
    ∧ ((identify_major_energy_sources df).2.Pairwise (fun p q => q.2 ≤ p.2)
      ∧ (identify_major_energy_sources df).2.Pairwise
          (fun p q => q.2 < p.2 ∨ (q.2 = p.2 ∧ strLt q.1 p.1)))
    ∧ ((analyze_import_export_dynamics df).1.Pairwise (fun p q => q.2 ≤ p.2)
      ∧ (analyze_import_export_dynamics df).1.Pairwise
          (fun p q => q.2 < p.2 ∨ (q.2 = p.2 ∧ strLt q.1 p.1)))
    ∧ ((analyze_import_export_dynamics df).2.Pairwise (fun p q => q.2 ≤ p.2)
      ∧ (analyze_import_export_dynamics df).2.Pairwise
          (fun p q => q.2 < p.2 ∨ (q.2 = p.2 ∧ strLt q.1 p.1))) :=
  ⟨sorted_output_desc _, sorted_output_desc _,
   sorted_output_desc _, sorted_output_desc _⟩

end EnergyTrade
